import Mathlib

/-
Shallow embedding of the request-construction and dispatch pipeline of the
httpAPIService library (src/simple_http.rs, src/simple_api.rs, src/common.rs),
together with proofs about the embedded operations.

Conventions used throughout:
* Rust `HashMap` iteration order is unspecified, so every map handed to a
  Rust `for (k, v) in map` loop is embedded as an association list recording
  one possible iteration order; properties quantify over that order.
* `&mut` mutation is embedded as explicit state passing: a Rust
  `fn f(&self, r: &mut R) -> Result<(), E>` becomes `R → Except E Unit × R`,
  the second component being the (possibly mutated) value of `r`.
* `Box<dyn Error>` payloads are embedded as `String`.
* Real time is embedded through an abstract completion-time oracle on the
  transport (`latencyMs`); the `tokio::time::timeout` race picks the timer
  branch exactly when the oracle exceeds the computed duration.
-/

namespace HttpApiService

/-- `Interceptor` trait (src/common.rs lines 31-34): an opaque id plus
`intercept(&self, request: &mut R) -> Result<(), Box<dyn Error>>`,
embedded state-passing style. -/
structure Interceptor (Req : Type) where
  id : String
  intercept : Req → Except String Unit × Req

/-- `ClientCommon` transport capability (src/simple_http.rs lines 39-41):
`request(&self, req) -> Future<Res>`.  The eventual value is `send`; the
abstract completion time of the future, in milliseconds, is `latencyMs`. -/
structure ClientCommon (Req Res : Type) where
  send : Req → Res
  latencyMs : Req → Nat

/-- src/simple_http.rs line 35: `DEFAULT_TIMEOUT_MILLISECOND: u64 = 30 * 1000`. -/
def DEFAULT_TIMEOUT_MILLISECOND : Nat := 30 * 1000

/-- `SimpleHTTP` (src/simple_http.rs lines 59-63): a transport client, a
`VecDeque` of interceptors (embedded as a list, front first) and a timeout. -/
structure SimpleHTTP (Req Res : Type) where
  client : ClientCommon Req Res
  interceptors : List (Interceptor Req)
  timeout_millisecond : Nat

/-- `SimpleHTTP::add_interceptor` (src/simple_http.rs lines 82-84):
`push_back` on the deque, i.e. append at the tail. -/
def SimpleHTTP.add_interceptor (s : SimpleHTTP Req Res) (i : Interceptor Req) :
    SimpleHTTP Req Res :=
  { s with interceptors := s.interceptors ++ [i] }

/-- `SimpleHTTP::add_interceptor_front` (src/simple_http.rs lines 85-87):
`push_front` on the deque, i.e. prepend at the head. -/
def SimpleHTTP.add_interceptor_front (s : SimpleHTTP Req Res) (i : Interceptor Req) :
    SimpleHTTP Req Res :=
  { s with interceptors := i :: s.interceptors }

/-- The loop body of `SimpleHTTP::delete_interceptor` (src/simple_http.rs
lines 88-101): scan the deque in order and remove the element at the first
index whose `get_id()` equals the given id; leave the deque unchanged when
no element matches. -/
def deleteFirstById (target : String) : List (Interceptor Req) → List (Interceptor Req)
  | [] => []
  | i :: rest => if i.id = target then rest else i :: deleteFirstById target rest

/-- `SimpleHTTP::delete_interceptor` (src/simple_http.rs lines 88-101). -/
def SimpleHTTP.delete_interceptor (s : SimpleHTTP Req Res) (i : Interceptor Req) :
    SimpleHTTP Req Res :=
  { s with interceptors := deleteFirstById i.id s.interceptors }

/-- `SimpleHTTP::add_interceptor_fn` (src/simple_http.rs lines 108-117):
wraps the closure in an `InterceptorFunc` whose id comes from `generate_id()`
(src/common.rs lines 222-228, a time/thread based generator, embedded as the
`generatedId` argument), appends it, and returns the new interceptor. -/
def SimpleHTTP.add_interceptor_fn (s : SimpleHTTP Req Res) (generatedId : String)
    (func : Req → Except String Unit × Req) :
    SimpleHTTP Req Res × Interceptor Req :=
  let i : Interceptor Req := ⟨generatedId, func⟩
  (s.add_interceptor i, i)

/-- The interceptor loop of `SimpleHTTP::request` (src/simple_http.rs lines
252-254): `for interceptor in &mut self.interceptors.iter()
{ interceptor.intercept(&mut request)?; }` — invoke each interceptor in
deque order, stopping at the first error. -/
def runInterceptors : List (Interceptor Req) → Req → Except String Unit × Req
  | [], req => (Except.ok (), req)
  | i :: rest, req =>
    match i.intercept req with
    | (Except.ok _, req1) => runInterceptors rest req1
    | (Except.error e, req1) => (Except.error e, req1)

/-- Instrumented version of `runInterceptors` recording, in order, the id of
every interceptor whose `intercept` is invoked.  Used to state which
interceptors a run observes; `runAllTrace_sound` ties it to the plain loop. -/
def runAllTrace : List (Interceptor Req) → Req → List String × (Except String Unit × Req)
  | [], req => ([], (Except.ok (), req))
  | i :: rest, req =>
    match i.intercept req with
    | (Except.ok _, req1) =>
      let r := runAllTrace rest req1
      (i.id :: r.1, r.2)
    | (Except.error e, req1) => ([i.id], (Except.error e, req1))

/-- The error channel of `SimpleHTTP::request`: the outer
`Result<_, Box<dyn Error>>` of `SimpleHTTPResponse` carries either a boxed
interceptor error or the boxed `tokio::time::error::Elapsed`. -/
inductive DispatchError where
  | interceptor (e : String)
  | timeoutElapsed
deriving DecidableEq

/-- `SimpleHTTP::request` (src/simple_http.rs lines 248-270): run the
interceptor chain (fail fast, untimed), then race the transport call against
`tokio::time::timeout` with duration `timeout_millisecond` when positive and
`DEFAULT_TIMEOUT_MILLISECOND` otherwise.  The transport result (of type
`Res`, itself a `Result` in the hyper instantiation) is propagated unchanged
inside `Except.ok`; the elapsed timer surfaces in the `Except.error` branch. -/
def SimpleHTTP.request (s : SimpleHTTP Req Res) (req : Req) : Except DispatchError Res :=
  match runInterceptors s.interceptors req with
  | (Except.error e, _) => Except.error (DispatchError.interceptor e)
  | (Except.ok _, req1) =>
    if s.client.latencyMs req1 ≤
        (if s.timeout_millisecond > 0 then s.timeout_millisecond
         else DEFAULT_TIMEOUT_MILLISECOND) then
      Except.ok (s.client.send req1)
    else
      Except.error DispatchError.timeoutElapsed

/-- An interceptor that always succeeds, mutating the request by `g`.
Fixture used to observe execution order. -/
def mkOkItc (id : String) (g : Req → Req) : Interceptor Req :=
  ⟨id, fun r => (Except.ok (), g r)⟩

/-- A transport client for a trivial response type, used by witnesses. -/
def unitClient (Req : Type) : ClientCommon Req Unit :=
  ⟨fun _ => (), fun _ => 0⟩

/-- Fixture interceptor appending a tag to a log-typed request. -/
def logItc (tag : String) : Interceptor (List String) :=
  mkOkItc tag (fun r => r ++ [tag])

/-- Fixture interceptor that mutates the log and then fails. -/
def boomItc (tag : String) (e : String) : Interceptor (List String) :=
  ⟨tag, fun r => (Except.error e, r ++ [tag])⟩

/-- One mutation of the interceptor chain, as exposed by `SimpleHTTP`
(src/simple_http.rs lines 82-117).  `addFn` carries the id produced by
`generate_id()` (src/common.rs lines 222-228), which is impure in the
source and therefore an explicit datum here. -/
inductive ChainOp (Req : Type) where
  | add (i : Interceptor Req)
  | addFront (i : Interceptor Req)
  | addFn (generatedId : String) (func : Req → Except String Unit × Req)
  | delete (i : Interceptor Req)

/-- Apply one chain operation. -/
def applyOp (s : SimpleHTTP Req Res) : ChainOp Req → SimpleHTTP Req Res
  | ChainOp.add i => s.add_interceptor i
  | ChainOp.addFront i => s.add_interceptor_front i
  | ChainOp.addFn gid f => (s.add_interceptor_fn gid f).1
  | ChainOp.delete i => s.delete_interceptor i

/-- Apply a sequence of chain operations in order. -/
def applyOps (s : SimpleHTTP Req Res) : List (ChainOp Req) → SimpleHTTP Req Res
  | [] => s
  | op :: rest => applyOps (applyOp s op) rest

/-- An insertion is fresh when the id it brings is not already an id of the
current chain; deletions are always admissible. -/
def opFresh (s : SimpleHTTP Req Res) : ChainOp Req → Bool
  | ChainOp.add i => decide (i.id ∉ s.interceptors.map Interceptor.id)
  | ChainOp.addFront i => decide (i.id ∉ s.interceptors.map Interceptor.id)
  | ChainOp.addFn gid _ => decide (gid ∉ s.interceptors.map Interceptor.id)
  | ChainOp.delete _ => true

/-- Every operation of the sequence is fresh for the chain state at which
it is applied. -/
def freshOps (s : SimpleHTTP Req Res) : List (ChainOp Req) → Bool
  | [] => true
  | op :: rest => opFresh s op && freshOps (applyOp s op) rest

/-- Does `s` start with `pat`?  Character-level model of Rust pattern
matching at the head of a string slice. -/
def startsWithL (s pat : List Char) : Bool :=
  match s, pat with
  | _, [] => true
  | [], _ :: _ => false
  | c :: cs, p :: ps => decide (c = p) && startsWithL cs ps

/-- Does `pat` occur as a contiguous substring of `s`? -/
def occursIn (pat s : List Char) : Bool :=
  match s with
  | [] => pat.isEmpty
  | _ :: cs => startsWithL s pat || occursIn pat cs

/-- Scanner of Rust `str::replace` for a nonempty pattern: at each position,
if the pattern matches, emit the replacement and skip the pattern; otherwise
copy one character.  The fuel argument only bounds the recursion; it is set
to the string length by `replaceL` and `replaceGo_fuel` shows any
sufficiently large fuel gives the same result. -/
def replaceGo (pat rep : List Char) : Nat → List Char → List Char
  | 0, s => s
  | _ + 1, [] => []
  | fuel + 1, c :: cs =>
    if startsWithL (c :: cs) pat then
      rep ++ replaceGo pat rep fuel ((c :: cs).drop pat.length)
    else
      c :: replaceGo pat rep fuel cs

/-- Rust `str::replace(pat, rep)` (left-to-right, non-overlapping).  Every
call site in the embedded source passes the nonempty pattern `"{" + k + "}"`;
the empty pattern is mapped to the identity. -/
def replaceL (s pat rep : List Char) : List Char :=
  if pat.isEmpty then s else replaceGo pat rep s.length s

/-- The path-parameter loop of `SimpleAPI::make_request` (src/simple_api.rs
lines 650-655): for each `(k, v)` of the map, in iteration order,
`relative_url = relative_url.replace("{" + k + "}", v)`. -/
def applyPathParams (relative_url : List Char)
    (params : List (List Char × List Char)) : List Char :=
  params.foldl (fun r kv => replaceL r ('{' :: (kv.1 ++ ['}'])) kv.2) relative_url

/-- A token of a URL template: a literal segment (no opening brace) or a
placeholder `{name}`. -/
inductive UrlTok where
  | lit (s : List Char)
  | hole (name : List Char)
deriving DecidableEq

/-- Render one template token back to its characters. -/
def renderTok : UrlTok → List Char
  | UrlTok.lit s => s
  | UrlTok.hole n => '{' :: (n ++ ['}'])

/-- Render a template token list to a string. -/
def renderToks (ts : List UrlTok) : List Char := (ts.map renderTok).flatten

/-- Replace the `{k}` holes of a token by the value `v`. -/
def substTok (k v : List Char) : UrlTok → UrlTok
  | UrlTok.lit s => UrlTok.lit s
  | UrlTok.hole n => if n = k then UrlTok.lit v else UrlTok.hole n

/-- First value bound to `k` in an association list. -/
def lookupL (k : List Char) : List (List Char × List Char) → Option (List Char)
  | [] => none
  | kv :: rest => if kv.1 = k then some kv.2 else lookupL k rest

/-- Simultaneous substitution, following the spec's words: every `{k}`
occurrence of the template with `k` in the map becomes the map's value for
`k`, and `{other}` occurrences for keys not in the map are left unchanged. -/
def substHoles (params : List (List Char × List Char)) (ts : List UrlTok) : List UrlTok :=
  ts.map (fun t =>
    match t with
    | UrlTok.lit s => UrlTok.lit s
    | UrlTok.hole n =>
      match lookupL n params with
      | some v => UrlTok.lit v
      | none => UrlTok.hole n)

/-- Well-formed template token: literal segments carry no opening brace and
placeholder names carry no brace at all. -/
def wfTok : UrlTok → Bool
  | UrlTok.lit s => decide ('{' ∉ s)
  | UrlTok.hole n => decide ('{' ∉ n) && decide ('}' ∉ n)

/-- Well-behaved path parameter: a brace-free key and a value free of
opening braces (so substituted values cannot form new placeholders). -/
def wfParam (kv : List Char × List Char) : Bool :=
  decide ('{' ∉ kv.1) && decide ('}' ∉ kv.1) && decide ('{' ∉ kv.2)

/-- Header collection, embedding `hyper::HeaderMap` with names already
normalized to lower case (as `HeaderName` does). -/
abbrev HeaderMap := List (String × String)

/-- `HeaderMap::insert` (hyper): drop every value previously associated
with the key and store the new one. -/
def headerInsert (h : HeaderMap) (k v : String) : HeaderMap :=
  h.filter (fun kv => decide (kv.1 ≠ k)) ++ [(k, v)]

/-- `HeaderMap::get`: first value stored for the key. -/
def lookupHeader (k : String) : HeaderMap → Option String
  | [] => none
  | kv :: rest => if kv.1 = k then some kv.2 else lookupHeader k rest

/-- `hyper::header::CONTENT_TYPE` renders as this lower-case name. -/
def CONTENT_TYPE : String := "content-type"

/-- Validity check of `HeaderValue::from_str`: every character must be
visible ASCII, space, a byte above DEL, or horizontal tab. -/
def validHeaderValue (s : String) : Bool :=
  s.toList.all (fun c => (decide (32 ≤ c.toNat) && decide (c.toNat ≠ 127)) || decide (c.toNat = 9))

/-- Modelled from the spec: the `url` crate (an external collaborator) is
reduced to the parts the builder touches — a rendered scheme-plus-authority
prefix, a path and an optional query string. -/
structure Url where
  base : List Char
  path : List Char
  query : Option (List Char)
deriving DecidableEq

/-- Split a relative reference at its first `?` into path part and query. -/
def splitAtQuery : List Char → List Char × Option (List Char)
  | [] => ([], none)
  | c :: cs =>
    if c = '?' then ([], some cs)
    else
      let r := splitAtQuery cs
      (c :: r.1, r.2)

/-- Path prefix up to and including the last `/`. -/
def dropLastSegment (p : List Char) : List Char :=
  (p.reverse.dropWhile (fun c => decide (c ≠ '/'))).reverse

/-- Modelled from the spec: `Url::join` per standard URL-join semantics —
a reference starting with `/` replaces the whole path, any other reference
replaces the last path segment; the part after `?` becomes the new query. -/
def Url.join (u : Url) (rel : List Char) : Except String Url :=
  let pq := splitAtQuery rel
  match pq.1 with
  | '/' :: rest => Except.ok ⟨u.base, '/' :: rest, pq.2⟩
  | other => Except.ok ⟨u.base, dropLastSegment u.path ++ other, pq.2⟩

/-- `Url::set_query` (url crate): replace the whole query with the given
string. -/
def Url.set_query (u : Url) (q : Option (List Char)) : Url :=
  { u with query := q }

/-- Render the URL back to the string handed to `Uri::from_str`. -/
def Url.render (u : Url) : List Char :=
  u.base ++ u.path ++
    (match u.query with
     | some q => '?' :: q
     | none => [])

/-- The query-parameter loop of `SimpleAPI::make_request` (src/simple_api.rs
lines 661-665): for each `(k, v)` of the map, in iteration order,
`url.set_query(Some(k + "=" + v))`. -/
def applyQueryParams (u : Url) (qp : List (List Char × List Char)) : Url :=
  qp.foldl (fun u1 kv => u1.set_query (some (kv.1 ++ '=' :: kv.2))) u

/-- The request value built by `make_request`: a `hyper::Request` reduced to
the fields the builder sets. -/
structure BuiltRequest (B : Type) where
  uri : List Char
  method : String
  headers : HeaderMap
  body : B

/-- `SimpleAPI` (src/simple_api.rs lines 587-591). -/
structure SimpleAPI (B Res : Type) where
  simple_http : SimpleHTTP (BuiltRequest B) Res
  base_url : Url
  default_header : HeaderMap

/-- `SimpleAPI::make_request` (src/simple_api.rs lines 641-682): substitute
path parameters into the relative URL, join it onto the base URL, apply the
query-parameter loop, set the method, clone the default headers and insert
`Content-Type` over them when `content_type` is non-empty (failing like
`HeaderValue::from_str` on an invalid value), and attach the body. -/
def SimpleAPI.make_request (api : SimpleAPI B Res) (method : String)
    (relative_url : List Char) (content_type : String)
    (path_param : Option (List (List Char × List Char)))
    (query_param : Option (List (List Char × List Char)))
    (body : B) : Except String (BuiltRequest B) :=
  let relative_url1 :=
    match path_param with
    | some pp => applyPathParams relative_url pp
    | none => relative_url
  match api.base_url.join relative_url1 with
  | Except.error e => Except.error e
  | Except.ok url =>
    let url1 :=
      match query_param with
      | some qp => applyQueryParams url qp
      | none => url
    if content_type = "" then
      Except.ok ⟨url1.render, method, api.default_header, body⟩
    else if validHeaderValue content_type then
      Except.ok ⟨url1.render, method, headerInsert api.default_header CONTENT_TYPE content_type,
        body⟩
    else
      Except.error ("InvalidHeaderValue")

/-- Per-call header merge: fold of `HeaderMap::insert` over the supplied
header map, in iteration order. -/
def mergeHeaders (base call : HeaderMap) : HeaderMap :=
  call.foldl (fun acc kv => headerInsert acc kv.1 kv.2) base

/-- The request-construction part of `CommonAPI::_call_common`
(src/simple_api.rs lines 245-260): build the request via `make_request`,
then insert every supplied per-call header over the built request's
headers; the resulting request is the one handed to
`simple_http.request` for dispatch. -/
def call_common_request (api : SimpleAPI B Res) (method : String)
    (header : Option HeaderMap) (relative_url : List Char) (content_type : String)
    (path_param query_param : Option (List (List Char × List Char)))
    (body : B) : Except String (BuiltRequest B) :=
  match api.make_request method relative_url content_type path_param query_param body with
  | Except.error e => Except.error e
  | Except.ok req =>
    match header with
    | some hm => Except.ok { req with headers := mergeHeaders req.headers hm }
    | none => Except.ok req

/-- `FormData` of the external `formdata` crate, reduced to its fields. -/
abbrev FormData := List (String × String)

/-- Modelled from the spec: `formdata::generate_boundary` (external crate)
returns a freshly generated random boundary token on each call; the
generator is embedded as a state index, distinct states giving distinct
tokens. -/
def generate_boundary (state : Nat) : List Char :=
  'b' :: List.replicate state 'x'

/-- src/common.rs lines 205-210, `get_content_type_from_multipart_boundary`:
`MULTIPART_FORM_DATA.to_string() + "; boundary=\"" + boundary + "\""`
(the boundary bytes are valid UTF-8 by construction here, so the
`String::from_utf8` step cannot fail). -/
def get_content_type_from_multipart_boundary (boundary : List Char) : List Char :=
  ("multipart/form-data; boundary=\"").toList ++ boundary ++ ['"']

/-- Modelled from the spec: `formdata::write_formdata` (external crate)
writes the multipart wire encoding of the fields delimited by the given
boundary; the exact wire format is out of scope, only its use of the
boundary matters. -/
def write_formdata (boundary : List Char) (form_data : FormData) : List Char :=
  (form_data.map (fun kv => ('-' :: '-' :: boundary) ++ (kv.1.toList ++ kv.2.toList))).flatten
    ++ ('-' :: '-' :: boundary) ++ ['-', '-']

/-- src/common.rs lines 211-220, `data_and_boundary_from_multipart`:
generate a boundary, write the form data with it, return both. -/
def data_and_boundary_from_multipart (state : Nat) (form_data : FormData) :
    List Char × List Char :=
  let boundary := generate_boundary state
  (write_formdata boundary form_data, boundary)

/-- src/common.rs lines 150-157, `MultipartSerializerForBytes::encode`:
returns `(content_type, body)` where the content type is computed from the
boundary used to write the body. -/
def multipartSerializerEncode (state : Nat) (form_data : FormData) :
    List Char × List Char :=
  let db := data_and_boundary_from_multipart state form_data
  (get_content_type_from_multipart_boundary db.2, db.1)

/-- Fixture endpoint with no default headers, base URL http://localhost. -/
def api0 : SimpleAPI Unit Unit :=
  ⟨⟨unitClient (BuiltRequest Unit), [], 0⟩,
    ⟨("http://localhost").toList, ['/'], none⟩, []⟩

/-- Fixture endpoint with a default Authorization header. -/
def apiAuth : SimpleAPI Unit Unit :=
  ⟨⟨unitClient (BuiltRequest Unit), [], 0⟩,
    ⟨("http://localhost").toList, ['/'], none⟩,
    [(("authorization"), ("Bearer MY_TOKEN"))]⟩

/-- Fixture endpoint with a default Content-Type header. -/
def apiCT : SimpleAPI Unit Unit :=
  ⟨⟨unitClient (BuiltRequest Unit), [], 0⟩,
    ⟨("http://localhost").toList, ['/'], none⟩,
    [(CONTENT_TYPE, ("text/plain"))]⟩

end HttpApiService

namespace HttpApiService

theorem runAllTrace_sound (Req : Type) (l : List (Interceptor Req)) (req : Req) :
    (runAllTrace l req).2 = runInterceptors l req := by
  induction l generalizing req with
  | nil => rfl
  | cons i rest ih =>
    simp only [runAllTrace, runInterceptors]
    rcases h : i.intercept req with ⟨res, req1⟩
    cases res with
    | ok u => simpa using ih req1
    | error e => simp

theorem runAllTrace_follows_chain (Req : Type) (l : List (Interceptor Req)) (req : Req) :
    (runAllTrace l req).1 <+: l.map Interceptor.id := by
  induction l generalizing req with
  | nil => simp [runAllTrace]
  | cons i rest ih =>
    simp only [runAllTrace, List.map]
    rcases h : i.intercept req with ⟨res, req1⟩
    cases res with
    | ok u =>
      exact List.cons_prefix_cons.2 ⟨rfl, ih req1⟩
    | error e =>
      simp

theorem runAllTrace_mem_ids (Req : Type) (l : List (Interceptor Req)) (req : Req)
    (t : String) (ht : t ∈ (runAllTrace l req).1) : t ∈ l.map Interceptor.id :=
  (runAllTrace_follows_chain Req l req).sublist.mem ht

theorem runInterceptors_append (Req : Type) (l₁ l₂ : List (Interceptor Req)) (req : Req) :
    runInterceptors (l₁ ++ l₂) req =
      match runInterceptors l₁ req with
      | (Except.ok _, r) => runInterceptors l₂ r
      | (Except.error e, r) => (Except.error e, r) := by
  induction l₁ generalizing req with
  | nil => rfl
  | cons i rest ih =>
    simp only [List.cons_append, runInterceptors]
    rcases h : i.intercept req with ⟨res, req1⟩
    cases res with
    | ok u => simpa using ih req1
    | error e => simp

theorem runAllTrace_append_ok (Req : Type) (l₁ l₂ : List (Interceptor Req)) (req r : Req)
    (h : runInterceptors l₁ req = (Except.ok (), r)) :
    runAllTrace (l₁ ++ l₂) req =
      ((runAllTrace l₁ req).1 ++ (runAllTrace l₂ r).1, (runAllTrace l₂ r).2) := by
  induction l₁ generalizing req with
  | nil =>
    simp only [runInterceptors] at h
    obtain ⟨rfl⟩ : req = r := by simpa using congrArg Prod.snd h
    simp [runAllTrace]
  | cons i rest ih =>
    simp only [runInterceptors] at h
    simp only [List.cons_append, runAllTrace]
    rcases hi : i.intercept req with ⟨res, req1⟩
    cases res with
    | ok u =>
      rw [hi] at h
      simp only at h
      simp [ih req1 h]
    | error e =>
      rw [hi] at h
      simp at h

theorem deleteFirstById_not_mem (Req : Type) (t : String) (l : List (Interceptor Req))
    (h : t ∉ l.map Interceptor.id) : deleteFirstById t l = l := by
  induction l with
  | nil => rfl
  | cons i rest ih =>
    simp only [List.map_cons, List.mem_cons, not_or] at h
    simp only [deleteFirstById]
    rw [if_neg (fun hh => h.1 hh.symm), ih h.2]

theorem deleteFirstById_append_no_hit (Req : Type) (t : String)
    (pre l : List (Interceptor Req)) (h : t ∉ pre.map Interceptor.id) :
    deleteFirstById t (pre ++ l) = pre ++ deleteFirstById t l := by
  induction pre with
  | nil => rfl
  | cons i rest ih =>
    simp only [List.map_cons, List.mem_cons, not_or] at h
    simp only [List.cons_append, deleteFirstById]
    rw [if_neg (fun hh => h.1 hh.symm)]
    exact congrArg (fun z => i :: z) (ih h.2)

theorem deleteFirstById_cons_hit (Req : Type) (t : String) (y : Interceptor Req)
    (l : List (Interceptor Req)) (h : y.id = t) :
    deleteFirstById t (y :: l) = l := by
  simp [deleteFirstById, h]

/-- C3: with interceptor A added first and B second via `add_interceptor`,
and C added via `add_interceptor_front`, the chain order is C, A, B; the
interceptor loop of `SimpleHTTP.request` invokes them in the order C, A, B,
and the request mutations are applied in that same order. -/
theorem interceptor_order_front_first (Req Res : Type) (client : ClientCommon Req Res)
    (t : Nat) (a b c : String) (ga gb gc : Req → Req) (req : Req) :
    let s := (((⟨client, [], t⟩ : SimpleHTTP Req Res).add_interceptor
        (mkOkItc a ga)).add_interceptor (mkOkItc b gb)).add_interceptor_front (mkOkItc c gc)
    s.interceptors.map Interceptor.id = [c, a, b] ∧
      (runAllTrace s.interceptors req).1 = [c, a, b] ∧
      runInterceptors s.interceptors req = (Except.ok (), gb (ga (gc req))) :=
  ⟨rfl, rfl, rfl⟩

/-- C4: if every interceptor before `bad` succeeds and `bad` fails with
error `e`, then the chain run returns `e` together with the request as
mutated so far (mutations are not rolled back), the interceptors after
`bad` are never invoked (the trace stops at `bad.id`, independent of
`post`), and `SimpleHTTP.request` returns `bad`'s error without ever
reaching the transport (the outcome is the same for every client). -/
theorem interceptor_fail_fast (Req Res : Type) (client : ClientCommon Req Res) (t : Nat)
    (pre post : List (Interceptor Req)) (bad : Interceptor Req)
    (req reqPre reqBad : Req) (e : String)
    (hpre : runInterceptors pre req = (Except.ok (), reqPre))
    (hbad : bad.intercept reqPre = (Except.error e, reqBad)) :
    runInterceptors (pre ++ bad :: post) req = (Except.error e, reqBad) ∧
    (runAllTrace (pre ++ bad :: post) req).1 = (runAllTrace pre req).1 ++ [bad.id] ∧
    SimpleHTTP.request ⟨client, pre ++ bad :: post, t⟩ req
      = Except.error (DispatchError.interceptor e) := by
  have hrun : runInterceptors (pre ++ bad :: post) req = (Except.error e, reqBad) := by
    rw [runInterceptors_append Req pre (bad :: post) req, hpre]
    simp only [runInterceptors, hbad]
  refine ⟨hrun, ?_, ?_⟩
  · rw [runAllTrace_append_ok Req pre (bad :: post) req reqPre hpre]
    simp only [runAllTrace, hbad]
  · simp only [SimpleHTTP.request, hrun]

/-- Witness for C4 at a concrete chain: A logs and succeeds, B logs and
fails with error "boom", C is behind B and never runs. -/
theorem interceptor_fail_fast_witness :
    runInterceptors ([logItc ("a")] ++ boomItc ("b") ("boom") :: [logItc ("c")])
        ([] : List String) = (Except.error ("boom"), ["a", "b"]) ∧
    (runAllTrace ([logItc ("a")] ++ boomItc ("b") ("boom") :: [logItc ("c")])
        ([] : List String)).1 = ["a", "b"] ∧
    SimpleHTTP.request
        ⟨unitClient (List String), [logItc ("a")] ++ boomItc ("b") ("boom") :: [logItc ("c")], 5⟩
        ([] : List String)
      = Except.error (DispatchError.interceptor ("boom")) := by
  have h := interceptor_fail_fast (List String) Unit (unitClient (List String)) 5
    ([logItc ("a")]) ([logItc ("c")]) (boomItc ("b") ("boom"))
    [] (["a"]) (["a", "b"]) ("boom") rfl rfl
  exact h

/-- C5: `delete_interceptor x` removes exactly the first chain element whose
id equals `x.id` (here `y`), keeps the remaining interceptors in their
original relative order, a subsequent run never invokes an interceptor with
the removed id, and the chain is unchanged when no element carries that id. -/
theorem delete_interceptor_spec (Req Res : Type) (s : SimpleHTTP Req Res)
    (x y : Interceptor Req) (pre post : List (Interceptor Req))
    (hs : s.interceptors = pre ++ y :: post)
    (hy : y.id = x.id)
    (hpre : x.id ∉ pre.map Interceptor.id)
    (hpost : x.id ∉ post.map Interceptor.id) :
    (s.delete_interceptor x).interceptors = pre ++ post ∧
    (∀ req, x.id ∉ (runAllTrace (s.delete_interceptor x).interceptors req).1) ∧
    (∀ s2 : SimpleHTTP Req Res, x.id ∉ s2.interceptors.map Interceptor.id →
      (s2.delete_interceptor x).interceptors = s2.interceptors) := by
  have hdel : (s.delete_interceptor x).interceptors = pre ++ post := by
    simp only [SimpleHTTP.delete_interceptor, hs]
    rw [deleteFirstById_append_no_hit Req x.id pre (y :: post) hpre,
      deleteFirstById_cons_hit Req x.id y post hy]
  refine ⟨hdel, ?_, ?_⟩
  · intro req hmem
    rw [hdel] at hmem
    have hin := runAllTrace_mem_ids Req (pre ++ post) req x.id hmem
    simp only [List.map_append, List.mem_append] at hin
    cases hin with
    | inl h => exact hpre h
    | inr h => exact hpost h
  · intro s2 h2
    simp only [SimpleHTTP.delete_interceptor]
    rw [deleteFirstById_not_mem Req x.id s2.interceptors h2]

/-- Witness for C5 at a concrete chain [A, B, C]: removing B by id yields
[A, C], a run of the result never invokes id "b", and deleting from a chain
without a matching id is a no-op. -/
theorem delete_interceptor_spec_witness :
    (SimpleHTTP.delete_interceptor
        ⟨unitClient (List String), [logItc ("a"), logItc ("b"), logItc ("c")], 7⟩
        (logItc ("b"))).interceptors = [logItc ("a"), logItc ("c")] ∧
    ("b") ∉ (runAllTrace
        (SimpleHTTP.delete_interceptor
          ⟨unitClient (List String), [logItc ("a"), logItc ("b"), logItc ("c")], 7⟩
          (logItc ("b"))).interceptors ([] : List String)).1 := by
  have h := delete_interceptor_spec (List String) Unit
    ⟨unitClient (List String), [logItc ("a"), logItc ("b"), logItc ("c")], 7⟩
    (logItc ("b")) (logItc ("b")) ([logItc ("a")]) ([logItc ("c")])
    rfl rfl (by decide) (by decide)
  exact ⟨h.1, h.2.1 []⟩

theorem deleteFirstById_sublist (Req : Type) (t : String) (l : List (Interceptor Req)) :
    List.Sublist (deleteFirstById t l) l := by
  induction l with
  | nil => exact List.Sublist.refl []
  | cons i rest ih =>
    simp only [deleteFirstById]
    by_cases h : i.id = t
    · rw [if_pos h]
      exact List.sublist_cons_self i rest
    · rw [if_neg h]
      exact ih.cons₂ i

theorem applyOp_nodup (Req Res : Type) (s : SimpleHTTP Req Res) (op : ChainOp Req)
    (hs : (s.interceptors.map Interceptor.id).Nodup) (h : opFresh s op = true) :
    (((applyOp s op).interceptors.map Interceptor.id)).Nodup := by
  cases op with
  | add i =>
    have hni : i.id ∉ s.interceptors.map Interceptor.id := of_decide_eq_true h
    simp only [applyOp, SimpleHTTP.add_interceptor, List.map_append, List.map_cons,
      List.map_nil]
    rw [List.nodup_append]
    refine ⟨hs, List.nodup_singleton i.id, ?_⟩
    intro a ha hb
    rw [List.mem_singleton] at hb
    exact hni (hb ▸ ha)
  | addFront i =>
    have hni : i.id ∉ s.interceptors.map Interceptor.id := of_decide_eq_true h
    simp only [applyOp, SimpleHTTP.add_interceptor_front, List.map_cons]
    exact List.nodup_cons.2 ⟨hni, hs⟩
  | addFn gid f =>
    have hni : gid ∉ s.interceptors.map Interceptor.id := of_decide_eq_true h
    simp only [applyOp, SimpleHTTP.add_interceptor_fn, SimpleHTTP.add_interceptor,
      List.map_append, List.map_cons, List.map_nil]
    rw [List.nodup_append]
    refine ⟨hs, List.nodup_singleton gid, ?_⟩
    intro a ha hb
    rw [List.mem_singleton] at hb
    exact hni (hb ▸ ha)
  | delete i =>
    simp only [applyOp, SimpleHTTP.delete_interceptor]
    exact hs.sublist ((deleteFirstById_sublist Req i.id s.interceptors).map Interceptor.id)

theorem applyOps_nodup (Req Res : Type) (s : SimpleHTTP Req Res) (ops : List (ChainOp Req))
    (hs : (s.interceptors.map Interceptor.id).Nodup) (h : freshOps s ops = true) :
    (((applyOps s ops).interceptors.map Interceptor.id)).Nodup := by
  induction ops generalizing s with
  | nil => exact hs
  | cons op rest ih =>
    simp only [freshOps, Bool.and_eq_true] at h
    exact ih (applyOp s op) (applyOp_nodup Req Res s op hs h.1) h.2

/-- C9 (amended): starting from the empty chain, any sequence of
`add_interceptor`, `add_interceptor_front`, `add_interceptor_fn` and
`delete_interceptor` operations in which every inserted id is fresh for the
chain it is inserted into yields a chain whose ids are pairwise distinct;
and a run invokes interceptors in chain order (the trace of invoked ids is
a prefix of the chain's id list, `add` appending and `add_front`
prepending). -/
theorem chain_ids_nodup_of_fresh (Req Res : Type) (client : ClientCommon Req Res)
    (t : Nat) (ops : List (ChainOp Req))
    (h : freshOps (⟨client, [], t⟩ : SimpleHTTP Req Res) ops = true) :
    (((applyOps (⟨client, [], t⟩ : SimpleHTTP Req Res) ops).interceptors.map
        Interceptor.id)).Nodup ∧
    ∀ req, (runAllTrace (applyOps (⟨client, [], t⟩ : SimpleHTTP Req Res) ops).interceptors
        req).1
      <+: (applyOps (⟨client, [], t⟩ : SimpleHTTP Req Res) ops).interceptors.map
        Interceptor.id := by
  refine ⟨applyOps_nodup Req Res _ ops (by simp) h, ?_⟩
  intro req
  exact runAllTrace_follows_chain Req _ req

/-- Witness for C9 at a concrete fresh sequence: add "a", add "b" at the
front, add a closure with generated id "c", then delete "b". -/
theorem chain_ids_nodup_of_fresh_witness :
    (((applyOps (⟨unitClient (List String), [], 9⟩ : SimpleHTTP (List String) Unit)
        [ChainOp.add (logItc ("a")), ChainOp.addFront (logItc ("b")),
          ChainOp.addFn ("c") (fun r => (Except.ok (), r)),
          ChainOp.delete (logItc ("b"))]).interceptors.map Interceptor.id)).Nodup := by
  have h := chain_ids_nodup_of_fresh (List String) Unit (unitClient (List String)) 9
    [ChainOp.add (logItc ("a")), ChainOp.addFront (logItc ("b")),
      ChainOp.addFn ("c") (fun r => (Except.ok (), r)),
      ChainOp.delete (logItc ("b"))] (by decide)
  exact h.1

/-- Counterexample for C9 as stated: adding the same interceptor twice is a
legal operation sequence from the empty chain, and it yields duplicate ids. -/
theorem duplicate_add_breaks_nodup_cex :
    ¬ (((applyOps (⟨unitClient (List String), [], 9⟩ : SimpleHTTP (List String) Unit)
        [ChainOp.add (logItc ("x")), ChainOp.add (logItc ("x"))]).interceptors.map
        Interceptor.id)).Nodup := by
  decide

/-- C6: when the interceptor chain succeeds, `SimpleHTTP.request` races the
transport against a timer of `timeout_millisecond` milliseconds when that is
positive and `DEFAULT_TIMEOUT_MILLISECOND` (30 000 ms) otherwise; if the
transport completes within the duration its result — including a transport
error value — is propagated unchanged inside the `Except.ok` branch, while
an elapsed timer yields `Except.error DispatchError.timeoutElapsed`, and the
two branches are always distinguishable. -/
theorem request_timeout_spec (Req Res : Type) (s : SimpleHTTP Req Res) (req req1 : Req)
    (h : runInterceptors s.interceptors req = (Except.ok (), req1)) :
    (s.client.latencyMs req1 ≤
        (if s.timeout_millisecond > 0 then s.timeout_millisecond
         else DEFAULT_TIMEOUT_MILLISECOND) →
      s.request req = Except.ok (s.client.send req1)) ∧
    ((if s.timeout_millisecond > 0 then s.timeout_millisecond
        else DEFAULT_TIMEOUT_MILLISECOND) < s.client.latencyMs req1 →
      s.request req = Except.error DispatchError.timeoutElapsed) ∧
    (∀ r : Res,
      (Except.ok r : Except DispatchError Res) ≠ Except.error DispatchError.timeoutElapsed) := by
  refine ⟨?_, ?_, ?_⟩
  · intro hle
    simp only [SimpleHTTP.request, h]
    rw [if_pos hle]
  · intro hlt
    simp only [SimpleHTTP.request, h]
    rw [if_neg (by omega)]
  · intro r hcontra
    exact Except.noConfusion hcontra

/-- Witness for C6: a transport needing 50 000 ms against an unset (zero)
timeout, which falls back to the 30 000 ms default, yields the timeout
error, not the transport's own "refused" error. -/
theorem request_timeout_spec_witness :
    SimpleHTTP.request
        (⟨⟨fun _ => Except.error ("refused"), fun _ => 50000⟩, [], 0⟩ :
          SimpleHTTP Unit (Except String Nat)) ()
      = Except.error DispatchError.timeoutElapsed := by
  have h := request_timeout_spec Unit (Except String Nat)
    ⟨⟨fun _ => Except.error ("refused"), fun _ => 50000⟩, [], 0⟩ () () rfl
  exact h.2.1 (by decide)

theorem startsWithL_iff (pat s : List Char) : startsWithL s pat = true ↔ pat <+: s := by
  induction pat generalizing s with
  | nil => cases s <;> simp [startsWithL]
  | cons p ps ih =>
    cases s with
    | nil => simp [startsWithL]
    | cons c cs =>
      simp only [startsWithL, Bool.and_eq_true, decide_eq_true_eq, List.cons_prefix_cons]
      constructor
      · rintro ⟨h1, h2⟩
        exact ⟨h1.symm, (ih cs).1 h2⟩
      · rintro ⟨h1, h2⟩
        exact ⟨h1.symm, (ih cs).2 h2⟩

theorem replaceGo_fuel (pat rep : List Char) (hpat : pat ≠ []) :
    ∀ f₁ f₂ s, s.length ≤ f₁ → s.length ≤ f₂ →
      replaceGo pat rep f₁ s = replaceGo pat rep f₂ s := by
  intro f₁
  induction f₁ with
  | zero =>
    intro f₂ s h1 h2
    have hs : s = [] := List.eq_nil_of_length_eq_zero (Nat.le_zero.1 h1)
    subst hs
    cases f₂ <;> rfl
  | succ f ih =>
    intro f₂ s h1 h2
    cases s with
    | nil => cases f₂ <;> rfl
    | cons c cs =>
      cases f₂ with
      | zero =>
        simp only [List.length_cons] at h2
        omega
      | succ g =>
        have hplen : 1 ≤ pat.length := by
          cases pat with
          | nil => exact absurd rfl hpat
          | cons q qs => simp
        simp only [List.length_cons] at h1 h2
        simp only [replaceGo]
        by_cases hsw : startsWithL (c :: cs) pat = true
        · rw [if_pos hsw, if_pos hsw]
          congr 1
          apply ih
          · simp only [List.length_drop, List.length_cons]
            omega
          · simp only [List.length_drop, List.length_cons]
            omega
        · rw [if_neg hsw, if_neg hsw]
          congr 1
          apply ih <;> omega

theorem replaceL_nil (pat rep : List Char) : replaceL [] pat rep = [] := by
  unfold replaceL
  split <;> rfl

theorem replaceL_pos (s pat rep : List Char) (hpat : pat ≠ []) (hp : pat <+: s) :
    replaceL s pat rep = rep ++ replaceL (s.drop pat.length) pat rep := by
  have hne : ¬ (pat.isEmpty = true) := by
    cases pat with
    | nil => exact absurd rfl hpat
    | cons q qs => simp
  have hplen : 1 ≤ pat.length := by
    cases pat with
    | nil => exact absurd rfl hpat
    | cons q qs => simp
  cases s with
  | nil =>
    exact absurd (List.prefix_nil.1 hp) hpat
  | cons c cs =>
    unfold replaceL
    rw [if_neg hne, if_neg hne]
    have hsw : startsWithL (c :: cs) pat = true := (startsWithL_iff pat (c :: cs)).2 hp
    simp only [List.length_cons, replaceGo, if_pos hsw]
    congr 1
    apply replaceGo_fuel pat rep hpat
    · simp only [List.length_drop, List.length_cons]
      omega
    · exact Nat.le_refl _

theorem replaceL_neg (c : Char) (cs pat rep : List Char) (hpat : pat ≠ [])
    (hn : ¬ (pat <+: c :: cs)) :
    replaceL (c :: cs) pat rep = c :: replaceL cs pat rep := by
  have hne : ¬ (pat.isEmpty = true) := by
    cases pat with
    | nil => exact absurd rfl hpat
    | cons q qs => simp
  have hsw : ¬ (startsWithL (c :: cs) pat = true) :=
    fun h => hn ((startsWithL_iff pat (c :: cs)).1 h)
  unfold replaceL
  rw [if_neg hne, if_neg hne]
  simp only [List.length_cons, replaceGo, if_neg hsw]

theorem replaceL_pass (L s ptail rep : List Char) (hL : '{' ∉ L) :
    replaceL (L ++ s) ('{' :: ptail) rep = L ++ replaceL s ('{' :: ptail) rep := by
  induction L with
  | nil => simp
  | cons c L' ih =>
    simp only [List.mem_cons, not_or] at hL
    have hn : ¬ (('{' :: ptail) <+: c :: (L' ++ s)) := by
      intro hp
      exact hL.1 (List.cons_prefix_cons.1 hp).1
    rw [List.cons_append, replaceL_neg c (L' ++ s) ('{' :: ptail) rep (by simp) hn,
      ih hL.2, List.cons_append]

theorem key_mismatch (k : List Char) : ∀ (n s : List Char), '}' ∉ k → '}' ∉ n → k ≠ n →
    ¬ ((k ++ ['}']) <+: (n ++ '}' :: s)) := by
  induction k with
  | nil =>
    intro n s _ hn hne hp
    cases n with
    | nil => exact hne rfl
    | cons b n' =>
      have hb : ('}' : Char) = b := by simpa using hp
      exact hn (List.mem_cons.2 (Or.inl hb))
  | cons a k' ih =>
    intro n s hk hn hne hp
    simp only [List.mem_cons, not_or] at hk
    cases n with
    | nil =>
      have ha : a = '}' := by
        have := by simpa using hp
        exact this.1
      exact hk.1 ha.symm
    | cons b n' =>
      simp only [List.mem_cons, not_or] at hn
      simp only [List.cons_append, List.cons_prefix_cons] at hp
      refine ih n' s hk.2 hn.2 (fun hkn => hne ?_) hp.2
      rw [hp.1, hkn]

theorem replaceL_hole_ne (k n s rep : List Char)
    (hk1 : '{' ∉ k) (hk2 : '}' ∉ k) (hn1 : '{' ∉ n) (hn2 : '}' ∉ n) (hne : k ≠ n) :
    replaceL ('{' :: (n ++ '}' :: s)) ('{' :: (k ++ ['}'])) rep
      = '{' :: (n ++ '}' :: replaceL s ('{' :: (k ++ ['}'])) rep) := by
  have hstep1 : ¬ (('{' :: (k ++ ['}'])) <+: ('{' :: (n ++ '}' :: s))) := by
    intro hp
    exact key_mismatch k n s hk2 hn2 hne (List.cons_prefix_cons.1 hp).2
  rw [replaceL_neg '{' (n ++ '}' :: s) ('{' :: (k ++ ['}'])) rep (by simp) hstep1]
  congr 1
  rw [replaceL_pass n ('}' :: s) (k ++ ['}']) rep hn1]
  congr 1

theorem renderToks_cons (t : UrlTok) (ts : List UrlTok) :
    renderToks (t :: ts) = renderTok t ++ renderToks ts := by
  simp [renderToks]

theorem replaceL_render (k v : List Char) (ts : List UrlTok)
    (hk1 : '{' ∉ k) (hk2 : '}' ∉ k) (hts : ts.all wfTok = true) :
    replaceL (renderToks ts) ('{' :: (k ++ ['}'])) v
      = renderToks (ts.map (substTok k v)) := by
  induction ts with
  | nil =>
    simp only [List.map_nil]
    exact replaceL_nil _ _
  | cons t ts' ih =>
    simp only [List.all_cons, Bool.and_eq_true] at hts
    have ihh := ih hts.2
    cases t with
    | lit L =>
      have hL : '{' ∉ L := by simpa [wfTok] using hts.1
      rw [renderToks_cons]
      rw [show renderTok (UrlTok.lit L) = L from rfl]
      rw [replaceL_pass L (renderToks ts') (k ++ ['}']) v hL, ihh]
      rw [List.map_cons, renderToks_cons]
      rfl
    | hole n =>
      have hn : '{' ∉ n ∧ '}' ∉ n := by
        simpa [wfTok, decide_eq_true_eq] using hts.1
      by_cases hnk : n = k
      · subst hnk
        rw [renderToks_cons]
        rw [show renderTok (UrlTok.hole n) = '{' :: (n ++ ['}']) from rfl]
        rw [replaceL_pos (('{' :: (n ++ ['}'])) ++ renderToks ts') ('{' :: (n ++ ['}'])) v
          (by simp) (List.prefix_append _ _)]
        rw [List.drop_left, ihh, List.map_cons, renderToks_cons]
        simp [substTok, renderTok]
      · rw [renderToks_cons]
        have hshape : renderTok (UrlTok.hole n) ++ renderToks ts'
            = '{' :: (n ++ '}' :: renderToks ts') := by
          simp [renderTok]
        rw [hshape,
          replaceL_hole_ne k n (renderToks ts') v hk1 hk2 hn.1 hn.2 (fun h => hnk h.symm),
          ihh, List.map_cons, renderToks_cons]
        simp [substTok, if_neg hnk, renderTok]

theorem wf_substTok (k v : List Char) (ts : List UrlTok) (hv : '{' ∉ v)
    (hts : ts.all wfTok = true) : (ts.map (substTok k v)).all wfTok = true := by
  induction ts with
  | nil => rfl
  | cons t ts' ih =>
    simp only [List.all_cons, Bool.and_eq_true] at hts
    simp only [List.map_cons, List.all_cons, Bool.and_eq_true]
    refine ⟨?_, ih hts.2⟩
    cases t with
    | lit s => simpa [substTok, wfTok] using hts.1
    | hole n =>
      by_cases h : n = k
      · simp [substTok, h, wfTok, hv]
      · simpa [substTok, if_neg h, wfTok] using hts.1

theorem applyPathParams_render (params : List (List Char × List Char)) :
    ∀ ts : List UrlTok, params.all wfParam = true → ts.all wfTok = true →
      applyPathParams (renderToks ts) params
        = renderToks (params.foldl (fun acc kv => acc.map (substTok kv.1 kv.2)) ts) := by
  induction params with
  | nil =>
    intro ts _ _
    rfl
  | cons kv rest ih =>
    intro ts hp hts
    simp only [List.all_cons, Bool.and_eq_true] at hp
    have hk : ('{' ∉ kv.1 ∧ '}' ∉ kv.1) ∧ '{' ∉ kv.2 := by
      simpa [wfParam, Bool.and_eq_true, decide_eq_true_eq, and_assoc] using hp.1
    have hstep : replaceL (renderToks ts) ('{' :: (kv.1 ++ ['}'])) kv.2
        = renderToks (ts.map (substTok kv.1 kv.2)) :=
      replaceL_render kv.1 kv.2 ts hk.1.1 hk.1.2 hts
    show List.foldl _ (replaceL (renderToks ts) ('{' :: (kv.1 ++ ['}'])) kv.2) rest = _
    rw [hstep]
    exact ih (ts.map (substTok kv.1 kv.2)) hp.2 (wf_substTok kv.1 kv.2 ts hk.2 hts)

theorem foldl_substTok (params : List (List Char × List Char)) :
    ∀ ts : List UrlTok,
      params.foldl (fun acc kv => acc.map (substTok kv.1 kv.2)) ts = substHoles params ts := by
  induction params with
  | nil =>
    intro ts
    simp only [List.foldl_nil, substHoles]
    have hid : ∀ t : UrlTok,
        (match t with
          | UrlTok.lit s => UrlTok.lit s
          | UrlTok.hole n =>
            match lookupL n [] with
            | some v => UrlTok.lit v
            | none => UrlTok.hole n) = t := by
      intro t
      cases t <;> rfl
    calc ts = ts.map id := (List.map_id ts).symm
    _ = _ := List.map_congr_left (fun t _ => (hid t).symm)
  | cons kv rest ih =>
    intro ts
    simp only [List.foldl_cons]
    rw [ih (ts.map (substTok kv.1 kv.2))]
    simp only [substHoles, List.map_map]
    apply List.map_congr_left
    intro t _
    cases t with
    | lit s => rfl
    | hole n =>
      by_cases h : n = kv.1
      · simp [substTok, h, lookupL]
      · have h2 : ¬ (kv.1 = n) := fun hh => h hh.symm
        simp only [Function.comp, substTok, if_neg h, lookupL, if_neg h2]

/-- C2 (amended): for templates formed of brace-free literal segments and
`{name}` placeholders with brace-free names, and path-parameter maps whose
keys are brace-free and whose values contain no opening brace, the
sequential per-key replacement loop of `make_request` computes exactly the
simultaneous substitution: every `{k}` occurrence of the template with `k`
in the map is replaced by the map's value for `k`, and `{other}`
placeholders for keys not in the map are left unchanged; consequently
`make_request` on the template with the map builds the same request as
`make_request` on the pre-substituted template with no path parameters. -/
theorem path_substitution_simultaneous (params : List (List Char × List Char))
    (ts : List UrlTok) (hp : params.all wfParam = true) (hts : ts.all wfTok = true) :
    applyPathParams (renderToks ts) params = renderToks (substHoles params ts) ∧
    ∀ (B Res : Type) (api : SimpleAPI B Res) (method : String) (content_type : String)
      (qp : Option (List (List Char × List Char))) (body : B),
      api.make_request method (renderToks ts) content_type (some params) qp body
        = api.make_request method (renderToks (substHoles params ts)) content_type
            none qp body := by
  have hmain : applyPathParams (renderToks ts) params = renderToks (substHoles params ts) := by
    rw [applyPathParams_render params ts hp hts, foldl_substTok params ts]
  refine ⟨hmain, ?_⟩
  intro B Res api method content_type qp body
  simp only [SimpleAPI.make_request, hmain]

/-- Witness for C2 at the template `/{id}` with path parameter `id = 3`. -/
theorem path_substitution_simultaneous_witness :
    applyPathParams (['/', '{', 'i', 'd', '}']) [((['i', 'd']), (['3']))] = ['/', '3'] := by
  have h := path_substitution_simultaneous [((['i', 'd']), (['3']))]
    [UrlTok.lit (['/']), UrlTok.hole (['i', 'd'])] (by decide) (by decide)
  exact h.1

/-- Counterexample for C2 as stated: on template `/{a}` with the map
`a ↦ {b}, b ↦ x` (iterated in that order), the loop rewrites the value
substituted for `{a}` again and yields `/x`, although the claim requires
the template's `{a}` occurrence to hold the map's value `{b}`. -/
theorem path_subst_value_placeholder_cex :
    applyPathParams (renderToks [UrlTok.lit (['/']), UrlTok.hole (['a'])])
        [((['a']), (['{', 'b', '}'])), ((['b']), (['x']))] = ['/', 'x'] ∧
    renderToks (substHoles [((['a']), (['{', 'b', '}'])), ((['b']), (['x']))]
        [UrlTok.lit (['/']), UrlTok.hole (['a'])]) = ['/', '{', 'b', '}'] ∧
    (['/', 'x'] : List Char) ≠ ['/', '{', 'b', '}'] :=
  ⟨by decide, by decide, by decide⟩

theorem lookupHeader_append_none (k : String) (l₁ l₂ : HeaderMap)
    (h : lookupHeader k l₁ = none) :
    lookupHeader k (l₁ ++ l₂) = lookupHeader k l₂ := by
  induction l₁ with
  | nil => rfl
  | cons a l ih =>
    simp only [lookupHeader] at h
    by_cases ha : a.1 = k
    · rw [if_pos ha] at h
      cases h
    · rw [if_neg ha] at h
      simp only [List.cons_append, lookupHeader, if_neg ha]
      exact ih h

theorem lookupHeader_append_some (k : String) (l₁ l₂ : HeaderMap) (v : String)
    (h : lookupHeader k l₁ = some v) :
    lookupHeader k (l₁ ++ l₂) = some v := by
  induction l₁ with
  | nil => cases h
  | cons a l ih =>
    simp only [lookupHeader] at h
    by_cases ha : a.1 = k
    · rw [if_pos ha] at h
      simp only [List.cons_append, lookupHeader, if_pos ha]
      exact h
    · rw [if_neg ha] at h
      simp only [List.cons_append, lookupHeader, if_neg ha]
      exact ih h

theorem lookupHeader_filter_self (k : String) (l : HeaderMap) :
    lookupHeader k (l.filter (fun kv => decide (kv.1 ≠ k))) = none := by
  induction l with
  | nil => rfl
  | cons a l ih =>
    by_cases ha : a.1 = k
    · simp only [List.filter_cons, ha]
      simpa using ih
    · simp only [List.filter_cons]
      rw [if_pos (by simpa using ha)]
      simp only [lookupHeader, if_neg ha]
      exact ih

theorem lookupHeader_filter_other (k k' : String) (l : HeaderMap) (hne : k' ≠ k) :
    lookupHeader k' (l.filter (fun kv => decide (kv.1 ≠ k))) = lookupHeader k' l := by
  induction l with
  | nil => rfl
  | cons a l ih =>
    by_cases ha : a.1 = k
    · have ha' : a.1 ≠ k' := by
        rw [ha]
        exact fun hh => hne hh.symm
      have hdrop : (a :: l).filter (fun kv => decide (kv.1 ≠ k))
          = l.filter (fun kv => decide (kv.1 ≠ k)) := by
        simp [List.filter_cons, ha]
      rw [hdrop, ih]
      simp only [lookupHeader, if_neg ha']
    · simp only [List.filter_cons]
      rw [if_pos (by simpa using ha)]
      simp only [lookupHeader]
      by_cases ha2 : a.1 = k'
      · rw [if_pos ha2, if_pos ha2]
      · rw [if_neg ha2, if_neg ha2]
        exact ih

theorem lookupHeader_insert_self (h : HeaderMap) (k v : String) :
    lookupHeader k (headerInsert h k v) = some v := by
  unfold headerInsert
  rw [lookupHeader_append_none k _ _ (lookupHeader_filter_self k h)]
  simp [lookupHeader]

theorem lookupHeader_insert_other (h : HeaderMap) (k v k' : String) (hne : k' ≠ k) :
    lookupHeader k' (headerInsert h k v) = lookupHeader k' h := by
  unfold headerInsert
  rcases hcase : lookupHeader k' (h.filter (fun kv => decide (kv.1 ≠ k))) with _ | v'
  · rw [lookupHeader_append_none k' _ _ hcase,
      ← lookupHeader_filter_other k k' h hne, hcase]
    simp only [lookupHeader]
    rw [if_neg (fun hh => hne hh.symm)]
  · rw [lookupHeader_append_some k' _ _ v' hcase,
      ← lookupHeader_filter_other k k' h hne, hcase]

theorem lookupHeader_merge_miss (call : HeaderMap) : ∀ (base : HeaderMap) (k : String),
    k ∉ call.map Prod.fst → lookupHeader k (mergeHeaders base call) = lookupHeader k base := by
  induction call with
  | nil =>
    intro base k _
    rfl
  | cons kv rest ih =>
    intro base k hk
    simp only [List.map_cons, List.mem_cons, not_or] at hk
    show lookupHeader k (mergeHeaders (headerInsert base kv.1 kv.2) rest) = _
    rw [ih (headerInsert base kv.1 kv.2) k hk.2,
      lookupHeader_insert_other base kv.1 kv.2 k hk.1]

theorem lookupHeader_merge_hit (call : HeaderMap) : ∀ (base : HeaderMap) (k v : String),
    (call.map Prod.fst).Nodup → (k, v) ∈ call →
    lookupHeader k (mergeHeaders base call) = some v := by
  induction call with
  | nil =>
    intro base k v _ hm
    cases hm
  | cons kv rest ih =>
    intro base k v hnd hm
    simp only [List.map_cons, List.nodup_cons] at hnd
    cases List.mem_cons.1 hm with
    | inl heq =>
      have hk1 : kv.1 = k := by rw [← heq]
      have hv : kv.2 = v := by rw [← heq]
      show lookupHeader k (mergeHeaders (headerInsert base kv.1 kv.2) rest) = some v
      rw [hk1, hv, lookupHeader_merge_miss rest (headerInsert base k v) k (hk1 ▸ hnd.1),
        lookupHeader_insert_self base k v]
    | inr hmem =>
      exact ih (headerInsert base kv.1 kv.2) k v hnd.2 hmem

theorem lookupHeader_of_mem_nodup (h : HeaderMap) (k v : String)
    (hnd : (h.map Prod.fst).Nodup) (hm : (k, v) ∈ h) : lookupHeader k h = some v := by
  induction h with
  | nil => cases hm
  | cons a l ih =>
    simp only [List.map_cons, List.nodup_cons] at hnd
    cases List.mem_cons.1 hm with
    | inl heq =>
      have hk1 : k = a.1 := by rw [← heq]
      have hv : v = a.2 := by rw [← heq]
      simp only [lookupHeader, if_pos hk1.symm]
      rw [hv]
    | inr hmem =>
      have ha : a.1 ≠ k := by
        intro hh
        apply hnd.1
        rw [hh]
        exact List.mem_map.2 ⟨(k, v), hmem, rfl⟩
      simp only [lookupHeader, if_neg ha]
      exact ih hnd.2 hmem

theorem make_request_ok_elim (B Res : Type) (api : SimpleAPI B Res) (method : String)
    (relative_url : List Char) (content_type : String)
    (pp qp : Option (List (List Char × List Char))) (body : B) (req : BuiltRequest B)
    (h : api.make_request method relative_url content_type pp qp body = Except.ok req) :
    req.headers = (if content_type = "" then api.default_header
      else headerInsert api.default_header CONTENT_TYPE content_type) ∧
    req.method = method ∧ req.body = body := by
  simp only [SimpleAPI.make_request] at h
  split at h
  · cases h
  · split at h
    · rename_i hct
      obtain ⟨rfl⟩ : _ = req := by
        cases h
        rfl
      exact ⟨by rw [if_pos hct], rfl, rfl⟩
    · split at h
      · rename_i hct _
        obtain ⟨rfl⟩ : _ = req := by
          cases h
          rfl
        exact ⟨by rw [if_neg hct], rfl, rfl⟩
      · cases h

/-- C10: on every successful `make_request`, the built request's header map
is exactly the default-header snapshot when `content_type` is empty, and
exactly that snapshot with the `Content-Type` entry replaced/inserted when
it is non-empty; no header from any other source appears. -/
theorem make_request_headers_exact (B Res : Type) (api : SimpleAPI B Res) (method : String)
    (relative_url : List Char) (content_type : String)
    (pp qp : Option (List (List Char × List Char))) (body : B) (req : BuiltRequest B)
    (h : api.make_request method relative_url content_type pp qp body = Except.ok req) :
    req.headers = (if content_type = "" then api.default_header
      else headerInsert api.default_header CONTENT_TYPE content_type) :=
  (make_request_ok_elim B Res api method relative_url content_type pp qp body req h).1

/-- Witness for C10 on the fixture endpoint with a default Authorization
header and content type application/json. -/
theorem make_request_headers_exact_witness :
    ∃ req : BuiltRequest Unit,
      apiAuth.make_request ("PUT") (['/', 'p']) ("application/json") none none ()
        = Except.ok req ∧
      req.headers = (if ("application/json") = ("") then apiAuth.default_header
        else headerInsert apiAuth.default_header CONTENT_TYPE ("application/json")) := by
  refine ⟨_, rfl, ?_⟩
  exact make_request_headers_exact Unit Unit apiAuth ("PUT") (['/', 'p'])
    ("application/json") none none () _ rfl

/-- C7 (amended): the request built and dispatched by `_call_common` carries
every call-supplied header (for a key present in both the default set and
the call map, the call-supplied value wins, and no call-supplied header is
dropped by the merge); it carries every default header whose key the call
map does not set, except that a non-empty endpoint `content_type` replaces
the default `Content-Type` entry; and when the call map does not set
`Content-Type`, a non-empty endpoint `content_type` is carried. -/
theorem call_common_header_merge (B Res : Type) (api : SimpleAPI B Res) (method : String)
    (call : HeaderMap) (relative_url : List Char) (content_type : String)
    (pp qp : Option (List (List Char × List Char))) (body : B) (req : BuiltRequest B)
    (hnd : (call.map Prod.fst).Nodup)
    (hdefnd : (api.default_header.map Prod.fst).Nodup)
    (h : call_common_request api method (some call) relative_url content_type pp qp body
        = Except.ok req) :
    (∀ k v, (k, v) ∈ call → lookupHeader k req.headers = some v) ∧
    (∀ k v, (k, v) ∈ api.default_header → k ∉ call.map Prod.fst →
      (k = CONTENT_TYPE → content_type = "") →
      lookupHeader k req.headers = some v) ∧
    (content_type ≠ "" → CONTENT_TYPE ∉ call.map Prod.fst →
      lookupHeader CONTENT_TYPE req.headers = some content_type) := by
  simp only [call_common_request] at h
  rcases hmk : api.make_request method relative_url content_type pp qp body with e | req0
  · rw [hmk] at h
    cases h
  · rw [hmk] at h
    simp only at h
    have hreq : req = { req0 with headers := mergeHeaders req0.headers call } := by
      cases h
      rfl
    have hbase := (make_request_ok_elim B Res api method relative_url content_type
      pp qp body req0 hmk).1
    subst hreq
    refine ⟨?_, ?_, ?_⟩
    · intro k v hm
      exact lookupHeader_merge_hit call req0.headers k v hnd hm
    · intro k v hmem hnotcall hkct
      show lookupHeader k (mergeHeaders req0.headers call) = some v
      rw [lookupHeader_merge_miss call req0.headers k hnotcall, hbase]
      by_cases hct : content_type = ""
      · rw [if_pos hct]
        exact lookupHeader_of_mem_nodup api.default_header k v hdefnd hmem
      · have hkne : k ≠ CONTENT_TYPE := fun hh => hct (hkct hh)
        rw [if_neg hct,
          lookupHeader_insert_other api.default_header CONTENT_TYPE content_type k hkne]
        exact lookupHeader_of_mem_nodup api.default_header k v hdefnd hmem
    · intro hct hnotcall
      show lookupHeader CONTENT_TYPE (mergeHeaders req0.headers call) = some content_type
      rw [lookupHeader_merge_miss call req0.headers CONTENT_TYPE hnotcall, hbase,
        if_neg hct, lookupHeader_insert_self api.default_header CONTENT_TYPE content_type]

/-- Witness for C7 on the spec's scenario 3: default header
Authorization: Bearer MY_TOKEN, per-call header X-Trace: abc — the built
request carries both. -/
theorem call_common_header_merge_witness :
    ∃ req : BuiltRequest Unit,
      call_common_request apiAuth ("GET") (some [(("x-trace"), ("abc"))]) (['/', 'p'])
          ("") none none () = Except.ok req ∧
      lookupHeader ("x-trace") req.headers = some ("abc") ∧
      lookupHeader ("authorization") req.headers = some ("Bearer MY_TOKEN") := by
  refine ⟨_, rfl, ?_, ?_⟩
  · exact (call_common_header_merge Unit Unit apiAuth ("GET") [(("x-trace"), ("abc"))]
      (['/', 'p']) ("") none none () _ (by decide) (by decide) rfl).1
      ("x-trace") ("abc") (by decide)
  · exact (call_common_header_merge Unit Unit apiAuth ("GET") [(("x-trace"), ("abc"))]
      (['/', 'p']) ("") none none () _ (by decide) (by decide) rfl).2.1
      ("authorization") ("Bearer MY_TOKEN") (by decide) (by decide) (fun _ => rfl)

/-- Counterexample for C7 as stated: with a default header
Content-Type: text/plain and an endpoint content type application/json, the
request built by `_call_common` does not carry the default header — the
endpoint content type replaces it — so not every default header is carried. -/
theorem default_content_type_overridden_cex :
    ∃ req : BuiltRequest Unit,
      call_common_request apiCT ("GET") (some []) (['/', 'p']) ("application/json")
          none none () = Except.ok req ∧
      (CONTENT_TYPE, ("text/plain")) ∈ apiCT.default_header ∧
      lookupHeader CONTENT_TYPE req.headers = some ("application/json") ∧
      ((some ("application/json") : Option String) ≠ some ("text/plain")) := by
  refine ⟨_, rfl, by decide, rfl, by decide⟩

/-- C1 (the code evaluated at a failing input): the query-parameter loop of
`make_request` calls `set_query(Some(k + "=" + v))` once per pair, each call
replacing the whole query string, so with the two distinct pairs a=1, b=2
only the last-iterated pair survives in the built request's URL and a=1 is
dropped; in general the final query is exactly the last pair of the
iteration. -/
theorem query_params_last_write_only :
    (SimpleAPI.make_request api0 ("DELETE") (['/', 'x']) ("") none
        (some [((['a']), (['1'])), ((['b']), (['2']))]) ()
      = Except.ok ⟨("http://localhost/x?b=2").toList, ("DELETE"), [], ()⟩ ∧
    occursIn (['a', '=', '1']) (("http://localhost/x?b=2").toList) = false) ∧
    ∀ (u : Url) (qp : List (List Char × List Char)) (kv : List Char × List Char),
      (applyQueryParams u (qp ++ [kv])).query = some (kv.1 ++ '=' :: kv.2) := by
  refine ⟨⟨rfl, by decide⟩, ?_⟩
  intro u qp kv
  simp [applyQueryParams, List.foldl_append, Url.set_query]

/-- C8: the multipart serializer's content type is exactly
`multipart/form-data; boundary="<token>"` for the boundary token used to
write the body, and two successive encodes of the same form data draw
distinct boundary tokens, hence distinct content types. -/
theorem multipart_content_type_and_boundary (state : Nat) (form_data : FormData) :
    (multipartSerializerEncode state form_data).1
      = ("multipart/form-data; boundary=\"").toList ++ generate_boundary state ++ ['"'] ∧
    (multipartSerializerEncode state form_data).2
      = write_formdata (generate_boundary state) form_data ∧
    generate_boundary state ≠ generate_boundary (state + 1) ∧
    (multipartSerializerEncode state form_data).1
      ≠ (multipartSerializerEncode (state + 1) form_data).1 := by
  refine ⟨rfl, rfl, ?_, ?_⟩
  · intro hcontra
    have hlen := congrArg List.length hcontra
    simp only [generate_boundary, List.length_cons, List.length_replicate] at hlen
    omega
  · intro hcontra
    have hlen := congrArg List.length hcontra
    simp only [multipartSerializerEncode, data_and_boundary_from_multipart,
      get_content_type_from_multipart_boundary, generate_boundary, List.length_append,
      List.length_cons, List.length_replicate] at hlen
    omega

end HttpApiService
